import Mathlib

/-!
Verification development for the RQL logic gate simulator, a Python
repository whose core is a parameter sweep spectral analysis engine.
The definitions below are a shallow embedding of the relevant source
functions, translated from `src/src/simulator.py`, `src/src/utils.py`
and `src/src/circuit_builder.py`.  Energies are modelled as rationals;
the not-a-number markers used by the sweep recovery policy are modelled
by an explicit value type with a dedicated constructor.  Python
exceptions are modelled by an explicit error type; fallible functions
return `Except` values (paired with the post-state of the circuit for
the stateful ones, since the Python code mutates the circuit object in
place).
-/

/-- An entry of the energy table produced by a flux sweep.  Successful
points store rational energies (`num`); the first-point failure path of
the recovery policy stores not-a-number markers (`nan`), mirroring
`np.nan` in `flux_sweep`. -/
inductive EVal where
  | num : ℚ → EVal
  | nan : EVal
deriving DecidableEq, Repr

/-- Structured payloads of the `ValueError` exceptions raised in the
source, one constructor per raise site (the Python code formats these
as strings; the constructor arguments are the values interpolated into
the message, so an error that "names" a value carries it here). -/
inductive ErrMsg where
  | circuitNone
  | invalidFluxRange (lo hi : ℚ)
  | noFluxLoop
  | needThreeLevels
  | needTwoLevels
  | levelNotAvailable (level maxLevel : ℕ)
  | fluxOutOfRange (flux : ℚ)
  | energyNotPositive (name : String) (value : ℚ)
  | argminEmpty
deriving DecidableEq, Repr

/-- Model of the Python exceptions that flow through the core:
`ValueError` with a structured message, `IndexError` from sequence
indexing, `RuntimeError (cause)` for the `raise RuntimeError(msg) from e`
wrapping pattern, and `external` for arbitrary exceptions raised by the
external solver or circuit library (tagged so distinct external
failures stay distinct). -/
inductive PyErr where
  | valueError (msg : ErrMsg)
  | indexError (idx : ℕ)
  | runtimeError (cause : PyErr)
  | external (tag : ℕ)
deriving DecidableEq, Repr

/-- True exactly on `RuntimeError` values. -/
def PyErr.isRuntimeError : PyErr → Bool
  | .runtimeError _ => true
  | _ => false

/-- True exactly on `ValueError` values (the taxonomy the spec calls
ValidationError). -/
def PyErr.isValueError : PyErr → Bool
  | .valueError _ => true
  | _ => false

/-- True exactly on `Except.ok` values. -/
def exceptIsOk : Except PyErr α → Bool
  | .ok _ => true
  | .error _ => false

/-- Model of an `SQcircuit.Circuit` object as the sweep engine sees it:
`nModes` is the number of circuit modes (`set_trunc_nums` succeeds only
when the length of its argument matches it), `truncNums` the currently
configured truncation numbers, `hasLoop` whether the element scan of
`flux_sweep` finds a flux loop, `loopValue` the value of that loop, and
`builtFlux` the flux the currently built Hamiltonian reflects
(`circuit.update()` copies `loopValue` into it).  `diagFn` is the
external eigensolver behaviour: given the truncation configuration, the
built flux and the requested level count it either returns eigenvalues
or raises an arbitrary exception. -/
structure Circuit where
  nModes : ℕ
  truncNums : Option (List ℕ)
  hasLoop : Bool
  loopValue : ℚ
  builtFlux : ℚ
  diagFn : Option (List ℕ) → ℚ → ℕ → Except PyErr (List ℚ)

/-- The truncation fallback of `diagonalize_hamiltonian` (simulator.py
lines 50 to 73): if truncation numbers are already set, do nothing;
otherwise try `set_trunc_nums([50])`, on `ValueError` try
`set_trunc_nums([50, 50])`, and on failure of that as well leave the
circuit unchanged (the bare `pass` last resort). -/
def setTruncFallback (c : Circuit) : Circuit :=
  if c.truncNums.isSome then c
  else if c.nModes = 1 then { c with truncNums := some [50] }
  else if c.nModes = 2 then { c with truncNums := some [50, 50] }
  else c

/-- `diagonalize_hamiltonian` (simulator.py lines 28 to 90).  The whole
body runs inside one `try` whose handler re-raises every exception as
`RuntimeError(...) from e`.  The body raises `ValueError` on a `None`
circuit, runs the truncation fallback, calls the external solver, and
then formats `energies[0]` into a checkpoint message (an `IndexError`
when the solver returned no eigenvalues).  The first component is the
post-state of the (mutated in place) circuit object. -/
def diagonalize_hamiltonian (circuit : Option Circuit) (n_levels : ℕ) :
    Option Circuit × Except PyErr (List ℚ) :=
  match circuit with
  | none => (none, .error (.runtimeError (.valueError .circuitNone)))
  | some c =>
    let c2 := setTruncFallback c
    (some c2,
      match c2.diagFn c2.truncNums c2.builtFlux n_levels with
      | .error e => .error (.runtimeError e)
      | .ok energies =>
        if energies.isEmpty then .error (.runtimeError (.indexError 0))
        else .ok energies)

/-- `np.linspace(lo, hi, n)` with `endpoint=True`: for `n ≥ 2` the
evenly spaced grid `lo + (hi - lo) * i / (n - 1)`; for `n = 1` the
single sample `[lo]`; for `n = 0` the empty grid. -/
def linspace (lo hi : ℚ) (n : ℕ) : List ℚ :=
  if n ≤ 1 then List.replicate n lo
  else (List.range n).map (fun i : ℕ => lo + (hi - lo) * (i : ℚ) / ((n : ℚ) - 1))

/-- The per-point flux mutation of the sweep loop: `loop.value = flux_val`
followed by `circuit.update()` (simulator.py lines 156 and 159). -/
def setLoopAndUpdate (c : Circuit) (fv : ℚ) : Circuit :=
  { c with loopValue := fv, builtFlux := fv }

/-- One iteration of the sweep loop of `flux_sweep` (simulator.py lines
153 to 177), acting on the accumulated (circuit state, rows stored so
far).  On success the row is the returned energies truncated to
`n_store = min(n_levels, len(energies))` and zero padded to `n_levels`
(the table is preallocated with `np.zeros`).  On any per-point failure
the row is the previous row when one exists (`energy_levels[i-1]`) and
a row of not-a-number markers otherwise. -/
def sweepStep (n_levels : ℕ) (acc : Circuit × List (List EVal)) (fv : ℚ) :
    Circuit × List (List EVal) :=
  let c2 := setLoopAndUpdate acc.1 fv
  let dres := diagonalize_hamiltonian (some c2) n_levels
  let c3 := dres.1.getD c2
  match dres.2 with
  | .ok energies =>
    let n_store := min n_levels energies.length
    (c3, acc.2 ++
      [(energies.take n_store).map EVal.num ++
        List.replicate (n_levels - n_store) (EVal.num 0)])
  | .error _ =>
    (c3, acc.2 ++ [acc.2.getLastD (List.replicate n_levels EVal.nan)])

/-- The value pair returned by a successful `flux_sweep`: the flux grid
and the energy table (one row per point, one slot per level). -/
structure SweepRes where
  flux_values : List ℚ
  energy_levels : List (List EVal)
deriving DecidableEq, Repr

/-- `flux_sweep` (simulator.py lines 93 to 188).  The outer `try`
re-raises every escaping exception as `RuntimeError(...) from e`; the
escaping exceptions are the flux range `ValueError` (raised before the
grid is generated) and the missing loop `ValueError` (raised before the
sweep loop starts).  Per-point failures are contained by the recovery
policy inside `sweepStep` and never escape.  The first component is the
post-state of the circuit object, which the validation paths leave
untouched. -/
def flux_sweep (circuit : Circuit) (flux_range : Option (ℚ × ℚ))
    (n_points n_levels : ℕ) : Circuit × Except PyErr SweepRes :=
  let fr := match flux_range with
    | none => ((0 : ℚ), (1 : ℚ))
    | some p => p
  if 0 ≤ fr.1 ∧ fr.1 < fr.2 ∧ fr.2 ≤ 1 then
    if circuit.hasLoop then
      let flux_values := linspace fr.1 fr.2 n_points
      let res := flux_values.foldl (sweepStep n_levels) (circuit, [])
      (res.1, .ok ⟨flux_values, res.2⟩)
    else (circuit, .error (.runtimeError (.valueError .noFluxLoop)))
  else
    (circuit, .error (.runtimeError (.valueError (.invalidFluxRange fr.1 fr.2))))

/-- The diagonalization of one sweep sample fails: setting the loop to
the sample value, rebuilding and diagonalizing raises (simulator.py
line 171 catches exactly this). -/
def pointFails (n_levels : ℕ) (c : Circuit) (fv : ℚ) : Prop :=
  exceptIsOk (diagonalize_hamiltonian (some (setLoopAndUpdate c fv)) n_levels).2
    = false

/-- `calculate_anharmonicity` (simulator.py lines 191 to 226): raises
`ValueError` below three levels, otherwise returns
`(E2 - E1) - (E1 - E0)`; the exception handler re-raises unchanged. -/
def calculate_anharmonicity (energies : List ℚ) : Except PyErr ℚ :=
  if energies.length < 3 then .error (.valueError .needThreeLevels)
  else
    .ok ((energies.getD 2 0 - energies.getD 1 0) -
      (energies.getD 1 0 - energies.getD 0 0))

/-- The metrics record built by `calculate_gate_metrics` (a Python dict
with these four keys; `None` becomes `none`). -/
structure GateMetrics where
  ground_state_energy : ℚ
  first_excited_energy : Option ℚ
  transition_frequency : Option ℚ
  anharmonicity : Option ℚ
deriving DecidableEq, Repr

/-- `calculate_gate_metrics` (utils.py lines 269 to 302): raises
`ValueError` below two levels; otherwise builds the metrics dict, with
the anharmonicity entry set to `None` below three levels.  The source
guards the first excited and transition entries by `len(energies) > 1`,
kept here verbatim even though the earlier check makes it always
true. -/
def calculate_gate_metrics (energies : List ℚ) : Except PyErr GateMetrics :=
  if energies.length < 2 then .error (.valueError .needTwoLevels)
  else
    .ok
      { ground_state_energy := energies.getD 0 0
        first_excited_energy :=
          if 1 < energies.length then some (energies.getD 1 0) else none
        transition_frequency :=
          if 1 < energies.length then some (energies.getD 1 0 - energies.getD 0 0)
          else none
        anharmonicity :=
          if 3 ≤ energies.length then
            some ((energies.getD 2 0 - energies.getD 1 0) -
              (energies.getD 1 0 - energies.getD 0 0))
          else none }

/-- The gap sequence of `plot_anti_crossing` (utils.py line 235):
`np.abs(energy_levels[:, level2] - energy_levels[:, level1])`, one
entry per sweep point. -/
def gapSeq (energy_levels : List (List ℚ)) (level1 level2 : ℕ) : List ℚ :=
  energy_levels.map (fun row => |row.getD level2 0 - row.getD level1 0|)

/-- `np.argmin`: the index of the first occurrence of the minimum. -/
def argmin : List ℚ → ℕ
  | [] => 0
  | [_] => 0
  | x :: y :: ys =>
    if x ≤ (y :: ys).getD (argmin (y :: ys)) 0 then 0
    else argmin (y :: ys) + 1

/-- The minimum gap triple computed by `plot_anti_crossing` (utils.py
lines 236 to 238): the gap value, the flux where it occurs and its
index. -/
structure MinGapRes where
  min_gap : ℚ
  min_gap_flux : ℚ
  min_gap_idx : ℕ
deriving DecidableEq, Repr

/-- The minimum gap computation of `plot_anti_crossing` (utils.py lines
203 to 266), modelled on a numeric energy table of row length `ncols`
(the second component of `energy_levels.shape`).  The source checks
only `level2` against the level count (line 226, raising a `ValueError`
naming `level2` and the maximum); `level1` is first used at line 229 to
slice a column for plotting, which raises `IndexError` when it is out
of range.  `np.argmin` on an empty gap sequence raises `ValueError`.
The plotting side effects carry no information and are dropped; the
function returns the computed triple. -/
def plot_anti_crossing (flux_values : List ℚ) (energy_levels : List (List ℚ))
    (ncols level1 level2 : ℕ) : Except PyErr MinGapRes :=
  if ncols ≤ level2 then
    .error (.valueError (.levelNotAvailable level2 (ncols - 1)))
  else if ncols ≤ level1 then
    .error (.indexError level1)
  else
    let gap := gapSeq energy_levels level1 level2
    if gap.isEmpty then .error (.valueError .argminEmpty)
    else
      let idx := argmin gap
      .ok ⟨gap.getD idx 0, flux_values.getD idx 0, idx⟩

/-- `validate_flux` (circuit_builder.py lines 22 to 42): raises
`ValueError` outside the closed interval from 0 to 1, otherwise returns
`True`; the value is never altered. -/
def validate_flux (flux : ℚ) : Except PyErr Bool :=
  if 0 ≤ flux ∧ flux ≤ 1 then .ok true
  else .error (.valueError (.fluxOutOfRange flux))

/-- `validate_energy` (circuit_builder.py lines 45 to 68): raises
`ValueError` when the energy is not positive, otherwise returns `True`
(values above 1000 only produce a non-fatal log warning, which carries
no information here). -/
def validate_energy (energy : ℚ) (name : String) : Except PyErr Bool :=
  if energy ≤ 0 then .error (.valueError (.energyNotPositive name energy))
  else .ok true

/-- A concrete circuit whose solver always fails, used to exercise the
recovery policy. -/
def cFail : Circuit :=
  { nModes := 1
    truncNums := none
    hasLoop := true
    loopValue := 0
    builtFlux := 0
    diagFn := fun _ _ _ => .error (.external 7) }

/-- A concrete circuit whose solver deterministically succeeds with the
spectrum 0, 5, 9.5 GHz of the end-to-end scenario. -/
def cAlways : Circuit :=
  { nModes := 1
    truncNums := some [50]
    hasLoop := true
    loopValue := 1/2
    builtFlux := 1/2
    diagFn := fun _ _ _ => .ok [0, 5, 19/2] }

/-! Helper lemmas about list indexing. -/

/-- `getD` at a valid index is `getElem`. -/
theorem getD_eq_getElem_of_lt {α : Type} (l : List α) (j : ℕ) (d : α)
    (h : j < l.length) : l.getD j d = l[j] := by
  rw [List.getD_eq_getElem?_getD, List.getElem?_eq_getElem h]
  rfl

/-- `getElem?` at a valid index is `some` of the `getD` value. -/
theorem getElem?_eq_some_getD {α : Type} (l : List α) (j : ℕ) (d : α)
    (h : j < l.length) : l[j]? = some (l.getD j d) := by
  rw [List.getElem?_eq_getElem h, getD_eq_getElem_of_lt l j d h]

/-- `getLastD` is `getD` at the last position. -/
theorem getLastD_eq_getD {α : Type} (l : List α) (d : α) :
    l.getLastD d = l.getD (l.length - 1) d := by
  rw [List.getLastD_eq_getLast?, List.getLast?_eq_getElem?,
    List.getD_eq_getElem?_getD]

/-- The last element of a nonempty list is a member. -/
theorem getLastD_mem_of_ne_nil {α : Type} (l : List α) (d : α) (h : l ≠ []) :
    l.getLastD d ∈ l := by
  rw [List.getLastD_eq_getLast?, List.getLast?_eq_getLast _ h, Option.getD_some]
  exact List.getLast_mem h

/-! Claim C4: the anharmonicity formula. -/

/-- C4: for every energy sequence with at least 3 entries, both the
standalone `calculate_anharmonicity` and the anharmonicity field of the
`calculate_gate_metrics` result equal
`(e[2] - e[1]) - (e[1] - e[0])` exactly. -/
theorem anharmonicity_formula (e : List ℚ) (m : GateMetrics)
    (h3 : 3 ≤ e.length) (hm : calculate_gate_metrics e = .ok m) :
    calculate_anharmonicity e =
      .ok ((e.getD 2 0 - e.getD 1 0) - (e.getD 1 0 - e.getD 0 0)) ∧
    m.anharmonicity =
      some ((e.getD 2 0 - e.getD 1 0) - (e.getD 1 0 - e.getD 0 0)) := by
  have h2 : ¬ e.length < 2 := by omega
  have h3n : ¬ e.length < 3 := by omega
  constructor
  · rw [calculate_anharmonicity, if_neg h3n]
  · rw [calculate_gate_metrics, if_neg h2] at hm
    injection hm with hm
    subst hm
    simp [h3]

/-- Witness for C4 at the end-to-end scenario energies 0, 5, 9.5 GHz. -/
theorem anharmonicity_formula_witness :
    calculate_anharmonicity [0, 5, 19/2] = .ok (-1/2) ∧
    GateMetrics.anharmonicity
      ⟨0, some 5, some (5 - 0), some ((19/2 - 5) - (5 - 0))⟩ = some (-1/2) := by
  have h := anharmonicity_formula [0, 5, 19/2]
    ⟨0, some 5, some (5 - 0), some ((19/2 - 5) - (5 - 0))⟩ (by norm_num) rfl
  refine ⟨h.1.trans ?_, h.2.trans ?_⟩ <;> norm_num

/-! Claim C5: the gate metrics level count contract. -/

/-- C5: `calculate_gate_metrics` raises `ValueError` for sequences of
length 0 or 1; for every two element sequence it succeeds with the
ground state energy, the 0 to 1 transition frequency, and an absent
(`none`, not zero, not an error) anharmonicity. -/
theorem calculate_gate_metrics_contract (e : List ℚ) (a b : ℚ)
    (h : e.length < 2) :
    calculate_gate_metrics e = .error (.valueError .needTwoLevels) ∧
    calculate_gate_metrics [a, b] = .ok ⟨a, some b, some (b - a), none⟩ := by
  constructor
  · rw [calculate_gate_metrics, if_pos h]
  · rw [calculate_gate_metrics, if_neg (by simp)]
    simp

/-- Witness for C5: the empty sequence is rejected and `[0, 5]` yields
ground state 0, transition 5 and no anharmonicity. -/
theorem calculate_gate_metrics_contract_witness :
    calculate_gate_metrics [] = .error (.valueError .needTwoLevels) ∧
    calculate_gate_metrics [0, 5] = .ok ⟨0, some 5, some (5 - 0), none⟩ :=
  calculate_gate_metrics_contract [] 0 5 (by simp)

/-! Claim C8: the parameter validators reject without clamping. -/

/-- C8: `validate_flux` accepts exactly the closed interval from 0 to 1
(both endpoints included) and raises a `ValueError` carrying the
unchanged offending value otherwise; `validate_energy` accepts exactly
the positive values and raises a `ValueError` carrying the unchanged
offending value otherwise.  Neither ever clamps: the only success
output is the verdict `True`. -/
theorem validate_flux_energy_contract (f en : ℚ) (nm : String) :
    (validate_flux f = .ok true ↔ 0 ≤ f ∧ f ≤ 1) ∧
    (¬ (0 ≤ f ∧ f ≤ 1) →
      validate_flux f = .error (.valueError (.fluxOutOfRange f))) ∧
    (validate_energy en nm = .ok true ↔ 0 < en) ∧
    (en ≤ 0 →
      validate_energy en nm = .error (.valueError (.energyNotPositive nm en))) ∧
    validate_flux 0 = .ok true ∧ validate_flux 1 = .ok true := by
  refine ⟨⟨fun h => ?_, fun h => ?_⟩, fun h => ?_,
    ⟨fun h => ?_, fun h => ?_⟩, fun h => ?_, ?_, ?_⟩
  · by_contra hc
    rw [validate_flux, if_neg hc] at h
    exact absurd h (by simp)
  · rw [validate_flux, if_pos h]
  · rw [validate_flux, if_neg h]
  · by_contra hc
    rw [not_lt] at hc
    rw [validate_energy, if_pos hc] at h
    exact absurd h (by simp)
  · rw [validate_energy, if_neg (not_le.mpr h)]
  · rw [validate_energy, if_pos h]
  · rw [validate_flux, if_pos (by norm_num)]
  · rw [validate_flux, if_pos (by norm_num)]

/-- Witness for C8 at the spec scenario: flux 1.5 and energy -1.0 are
rejected, unclamped. -/
theorem validate_flux_energy_contract_witness :
    validate_flux (3/2) = .error (.valueError (.fluxOutOfRange (3/2))) ∧
    validate_energy (-1) "Ej" =
      .error (.valueError (.energyNotPositive "Ej" (-1))) :=
  ⟨(validate_flux_energy_contract (3/2) (-1) "Ej").2.1 (by norm_num),
   (validate_flux_energy_contract (3/2) (-1) "Ej").2.2.2.1 (by norm_num)⟩

/-! Claim C9: every failure of `diagonalize_hamiltonian` surfaces as a
wrapping `RuntimeError`. -/

/-- C9: every error escaping `diagonalize_hamiltonian` is a
`RuntimeError`; a solver exception is wrapped with the original
exception as its cause; a `None` circuit produces the `RuntimeError`
wrapping the `ValueError` about the missing circuit. -/
theorem diagonalize_hamiltonian_error_wrapping
    (circuit : Option Circuit) (c : Circuit) (n_levels m k : ℕ) (e err : PyErr)
    (h : (diagonalize_hamiltonian circuit n_levels).2 = .error e)
    (hsolver : (setTruncFallback c).diagFn (setTruncFallback c).truncNums
        (setTruncFallback c).builtFlux m = .error err) :
    PyErr.isRuntimeError e = true ∧
    (diagonalize_hamiltonian (some c) m).2 = .error (.runtimeError err) ∧
    (diagonalize_hamiltonian none k).2 =
      .error (.runtimeError (.valueError .circuitNone)) := by
  refine ⟨?_, ?_, rfl⟩
  · match circuit with
    | none =>
      simp only [diagonalize_hamiltonian, Except.error.injEq] at h
      rw [← h]
      rfl
    | some c0 =>
      simp only [diagonalize_hamiltonian] at h
      rcases hd : (setTruncFallback c0).diagFn (setTruncFallback c0).truncNums
          (setTruncFallback c0).builtFlux n_levels with e0 | es
      · rw [hd] at h
        simp only [Except.error.injEq] at h
        rw [← h]
        rfl
      · rw [hd] at h
        dsimp only at h
        by_cases he : es.isEmpty
        · rw [if_pos he] at h
          simp only [Except.error.injEq] at h
          rw [← h]
          rfl
        · rw [if_neg he] at h
          exact absurd h (by simp)
  · simp only [diagonalize_hamiltonian]
    rw [hsolver]

/-- Witness for C9: the `None` circuit failure is a `RuntimeError`, and
a circuit whose solver raises an external exception yields the
`RuntimeError` wrapping exactly that exception. -/
theorem diagonalize_hamiltonian_error_wrapping_witness :
    PyErr.isRuntimeError (.runtimeError (.valueError .circuitNone)) = true ∧
    (diagonalize_hamiltonian (some cFail) 2).2 =
      .error (.runtimeError (.external 7)) ∧
    (diagonalize_hamiltonian none 9).2 =
      .error (.runtimeError (.valueError .circuitNone)) :=
  diagonalize_hamiltonian_error_wrapping none cFail 4 2 9
    (.runtimeError (.valueError .circuitNone)) (.external 7) rfl rfl

/-! Claim C7: level index validation in the minimum gap computation. -/

/-- C7 counterexample: with a two level sweep table, requesting
`level_a = 5` and `level_b = 1` does not raise a `ValueError` (the
ValidationError of the spec): it raises an `IndexError` from the column
access instead, so the claim that either offending index produces a
ValidationError is false. -/
theorem plot_anti_crossing_level_a_cex :
    plot_anti_crossing [0, 1] [[0, 1], [0, 2]] 2 5 1 =
      .error (.indexError 5) ∧
    PyErr.isValueError (.indexError 5) = false :=
  ⟨rfl, rfl⟩

/-- C7 amended: only `level_b` (`level2`) is validated: when it is out
of range a `ValueError` naming it (and the maximum available index) is
raised before any gap is computed, whatever `level_a` is; an out of
range `level_a` (`level1`) with a valid `level_b` instead surfaces as
an `IndexError` from the plotting column access, also before any gap is
computed. -/
theorem plot_anti_crossing_validation
    (fv fv2 : List ℚ) (els els2 : List (List ℚ))
    (nc l1 l2 nc2 l12 l22 : ℕ)
    (h2 : nc ≤ l2) (h22 : l22 < nc2) (h12 : nc2 ≤ l12) :
    plot_anti_crossing fv els nc l1 l2 =
      .error (.valueError (.levelNotAvailable l2 (nc - 1))) ∧
    plot_anti_crossing fv2 els2 nc2 l12 l22 = .error (.indexError l12) := by
  constructor
  · rw [plot_anti_crossing, if_pos h2]
  · rw [plot_anti_crossing, if_neg (not_le.mpr h22), if_pos h12]

/-- Witness for C7 amended at concrete queries. -/
theorem plot_anti_crossing_validation_witness :
    plot_anti_crossing [] [] 1 0 1 =
      .error (.valueError (.levelNotAvailable 1 0)) ∧
    plot_anti_crossing [0, 1] [[0, 1], [0, 2]] 2 5 1 =
      .error (.indexError 5) :=
  plot_anti_crossing_validation [] [0, 1] [] [[0, 1], [0, 2]]
    1 0 1 2 5 1 (by omega) (by omega) (by omega)

/-! Claim C2: which sweep preconditions are validated. -/

/-- C2 counterexample: `n_points = 0` and `n_levels = 0` are not
rejected: a sweep with a valid flux range and such counts completes
without any ValidationError (the grid is empty, or every row has zero
slots), so the claim that `n_points < 1` or `level_count < 1` raises a
ValidationError before any computation is false. -/
theorem flux_sweep_no_count_validation_cex :
    (flux_sweep cAlways (some (0, 1)) 0 3).2 = .ok ⟨[], []⟩ ∧
    (flux_sweep cAlways (some (0, 1)) 3 0).2 =
      .ok ⟨linspace 0 1 3, [[], [], []]⟩ :=
  ⟨rfl, rfl⟩

/-- C2 amended: a flux range violating `0 ≤ lo < hi ≤ 1` is rejected
before any computation starts: the result is, for every circuit and
every point and level count, the `ValueError` naming the range (wrapped
in the `RuntimeError` the function re-raises), the circuit is returned
unchanged (no mutation), and no diagonalization is consulted; however
`n_points < 1` and `level_count < 1` are not validated: every call with
a valid range and a findable loop completes without error. -/
theorem flux_sweep_validation (c c2 : Circuit) (lo hi lo2 hi2 : ℚ)
    (np nl np2 nl2 : ℕ)
    (hbad : ¬ (0 ≤ lo ∧ lo < hi ∧ hi ≤ 1))
    (hgood : 0 ≤ lo2 ∧ lo2 < hi2 ∧ hi2 ≤ 1) (hloop : c2.hasLoop = true) :
    flux_sweep c (some (lo, hi)) np nl =
      (c, .error (.runtimeError (.valueError (.invalidFluxRange lo hi)))) ∧
    exceptIsOk (flux_sweep c2 (some (lo2, hi2)) np2 nl2).2 = true := by
  constructor
  · rw [flux_sweep, if_neg hbad]
  · rw [flux_sweep, if_pos hgood, if_pos hloop]
    rfl

/-- Witness for C2 amended: an inverted range is rejected with the
circuit untouched, and a zero point sweep on a valid range succeeds. -/
theorem flux_sweep_validation_witness :
    flux_sweep cAlways (some (3/2, 1)) 100 5 =
      (cAlways,
        .error (.runtimeError (.valueError (.invalidFluxRange (3/2) 1)))) ∧
    exceptIsOk (flux_sweep cAlways (some (0, 1)) 0 3).2 = true :=
  flux_sweep_validation cAlways cAlways (3/2) 1 0 1 100 5 0 3
    (by norm_num) (by norm_num) rfl

/-! Properties of `argmin` (first index of the minimum, as `np.argmin`). -/

/-- Unfolding equation for `argmin` on a list of length at least two. -/
theorem argmin_cons_cons (x y : ℚ) (ys : List ℚ) :
    argmin (x :: y :: ys) =
      if x ≤ (y :: ys).getD (argmin (y :: ys)) 0 then 0
      else argmin (y :: ys) + 1 := rfl

/-- `argmin` of a nonempty list is a valid index. -/
theorem argmin_lt_length (l : List ℚ) (h : l ≠ []) : argmin l < l.length := by
  induction l with
  | nil => exact absurd rfl h
  | cons x xs ih =>
    cases xs with
    | nil => simp [argmin]
    | cons y ys =>
      rw [argmin_cons_cons]
      by_cases hx : x ≤ (y :: ys).getD (argmin (y :: ys)) 0
      · rw [if_pos hx]
        simp
      · rw [if_neg hx]
        have hlt := ih (by simp)
        simp only [List.length_cons] at hlt ⊢
        omega

/-- The value at `argmin` is a lower bound of all entries. -/
theorem argmin_le_getD (l : List ℚ) (j : ℕ) (hj : j < l.length) :
    l.getD (argmin l) 0 ≤ l.getD j 0 := by
  induction l generalizing j with
  | nil => simp at hj
  | cons x xs ih =>
    cases xs with
    | nil =>
      have hj0 : j = 0 := by simpa using hj
      subst hj0
      simp [argmin]
    | cons y ys =>
      rw [argmin_cons_cons]
      by_cases hx : x ≤ (y :: ys).getD (argmin (y :: ys)) 0
      · rw [if_pos hx]
        cases j with
        | zero => simp
        | succ k =>
          rw [List.getD_cons_zero, List.getD_cons_succ]
          exact le_trans hx (ih k (by simpa using hj))
      · rw [if_neg hx]
        cases j with
        | zero =>
          rw [List.getD_cons_succ, List.getD_cons_zero]
          exact le_of_lt (not_le.mp hx)
        | succ k =>
          rw [List.getD_cons_succ, List.getD_cons_succ]
          exact ih k (by simpa using hj)

/-- Every entry strictly before `argmin` is strictly larger: `argmin`
is the first occurrence of the minimum. -/
theorem argmin_first_lt (l : List ℚ) (j : ℕ) (hj : j < argmin l) :
    l.getD (argmin l) 0 < l.getD j 0 := by
  induction l generalizing j with
  | nil => simp [argmin] at hj
  | cons x xs ih =>
    cases xs with
    | nil => simp [argmin] at hj
    | cons y ys =>
      rw [argmin_cons_cons] at hj ⊢
      by_cases hx : x ≤ (y :: ys).getD (argmin (y :: ys)) 0
      · rw [if_pos hx] at hj
        exact absurd hj (by omega)
      · rw [if_neg hx] at hj ⊢
        cases j with
        | zero =>
          rw [List.getD_cons_succ, List.getD_cons_zero]
          exact not_le.mp hx
        | succ k =>
          rw [List.getD_cons_succ, List.getD_cons_succ]
          exact ih k (by omega)

/-! Claim C6: the minimum gap computation. -/

/-- C6: on a sweep table with valid level indices, the minimum gap
computation returns the minimum of the absolute difference sequence
over all sweep points together with the parameter value and index where
it occurs; ties resolve to the first occurrence in parameter order, and
a unique minimum at index `k` is reported exactly at `k`. -/
theorem plot_anti_crossing_min_gap
    (flux_values : List ℚ) (energy_levels : List (List ℚ))
    (ncols level1 level2 : ℕ) (r : MinGapRes)
    (h1 : level1 < ncols) (h2 : level2 < ncols)
    (hne : energy_levels ≠ [])
    (hr : plot_anti_crossing flux_values energy_levels ncols level1 level2 =
      .ok r) :
    r.min_gap_idx < energy_levels.length ∧
    r.min_gap = (gapSeq energy_levels level1 level2).getD r.min_gap_idx 0 ∧
    (∀ j, j < energy_levels.length →
      r.min_gap ≤ (gapSeq energy_levels level1 level2).getD j 0) ∧
    (∀ j, j < r.min_gap_idx →
      r.min_gap < (gapSeq energy_levels level1 level2).getD j 0) ∧
    r.min_gap_flux = flux_values.getD r.min_gap_idx 0 ∧
    (∀ k, k < energy_levels.length →
      (∀ j, j < energy_levels.length → j ≠ k →
        (gapSeq energy_levels level1 level2).getD k 0 <
          (gapSeq energy_levels level1 level2).getD j 0) →
      r.min_gap_idx = k) := by
  have hlen : (gapSeq energy_levels level1 level2).length =
      energy_levels.length := by
    simp [gapSeq]
  have hgne : gapSeq energy_levels level1 level2 ≠ [] := by
    simp [gapSeq, hne]
  rw [plot_anti_crossing, if_neg (not_le.mpr h2), if_neg (not_le.mpr h1)] at hr
  rw [if_neg (by simpa [List.isEmpty_iff] using hgne)] at hr
  injection hr with hr
  subst hr
  refine ⟨?_, rfl, ?_, ?_, rfl, ?_⟩
  · rw [← hlen]
    exact argmin_lt_length _ hgne
  · intro j hj
    exact argmin_le_getD _ j (by rw [hlen]; exact hj)
  · intro j hj
    exact argmin_first_lt _ j hj
  · intro k hk hmin
    by_contra hne2
    have hminlt := hmin (argmin (gapSeq energy_levels level1 level2))
      (by rw [← hlen]; exact argmin_lt_length _ hgne) hne2
    have hle := argmin_le_getD (gapSeq energy_levels level1 level2) k
      (by rw [hlen]; exact hk)
    exact absurd hminlt (not_lt.mpr hle)

/-- Witness for C6 on a synthetic three point sweep whose gap sequence
`[3, 1, 2]` has its unique minimum 1 at index 1. -/
theorem plot_anti_crossing_min_gap_witness :
    plot_anti_crossing [0, 1/2, 1] [[0, 3], [0, 1], [0, 2]] 2 0 1 =
      .ok ⟨1, 1/2, 1⟩ ∧
    MinGapRes.min_gap_idx ⟨1, 1/2, 1⟩ < ([[0, 3], [0, 1], [0, 2]] :
      List (List ℚ)).length ∧
    MinGapRes.min_gap ⟨1, 1/2, 1⟩ ≤ (gapSeq [[0, 3], [0, 1], [0, 2]] 0 1).getD 0 0 := by
  have hok : plot_anti_crossing [0, 1/2, 1] [[0, 3], [0, 1], [0, 2]] 2 0 1 =
      .ok ⟨1, 1/2, 1⟩ := by
    norm_num [plot_anti_crossing, gapSeq, argmin]
  have h := plot_anti_crossing_min_gap [0, 1/2, 1] [[0, 3], [0, 1], [0, 2]]
    2 0 1 ⟨1, 1/2, 1⟩ (by omega) (by omega) (by simp) hok
  exact ⟨hok, h.1, h.2.2.1 0 (by simp)⟩

/-! Properties of the sweep loop. -/

/-- `setTruncFallback` only touches the truncation numbers. -/
theorem setTruncFallback_loopValue (c : Circuit) :
    (setTruncFallback c).loopValue = c.loopValue := by
  unfold setTruncFallback
  split_ifs <;> rfl

/-- The circuit state after a sweep step is the truncation fallback of
the flux mutated circuit, whatever the diagonalization outcome. -/
theorem sweepStep_fst (n : ℕ) (acc : Circuit × List (List EVal)) (fv : ℚ) :
    (sweepStep n acc fv).1 = setTruncFallback (setLoopAndUpdate acc.1 fv) := by
  simp only [sweepStep]
  cases hd : (diagonalize_hamiltonian (some (setLoopAndUpdate acc.1 fv)) n).2 <;>
    rfl

/-- A sweep step appends exactly one row. -/
theorem sweepStep_snd_append (n : ℕ) (acc : Circuit × List (List EVal))
    (fv : ℚ) : ∃ row, (sweepStep n acc fv).2 = acc.2 ++ [row] := by
  simp only [sweepStep]
  cases hd : (diagonalize_hamiltonian (some (setLoopAndUpdate acc.1 fv)) n).2 <;>
    exact ⟨_, rfl⟩

/-- A failed sweep step appends the previous row, or a row of
not-a-number markers when no row exists yet. -/
theorem sweepStep_snd_of_fail (n : ℕ) (acc : Circuit × List (List EVal))
    (fv : ℚ) (hfail : pointFails n acc.1 fv) :
    (sweepStep n acc fv).2 =
      acc.2 ++ [acc.2.getLastD (List.replicate n EVal.nan)] := by
  simp only [sweepStep]
  rcases hd : (diagonalize_hamiltonian (some (setLoopAndUpdate acc.1 fv)) n).2
      with e | es
  · rfl
  · rw [pointFails, hd] at hfail
    exact absurd hfail (by simp [exceptIsOk])

/-- After a sweep step every stored row has `n` slots, provided the
rows stored so far do. -/
theorem sweepStep_row_length (n : ℕ) (acc : Circuit × List (List EVal))
    (fv : ℚ) (hrows : ∀ row ∈ acc.2, row.length = n) :
    ∀ row ∈ (sweepStep n acc fv).2, row.length = n := by
  simp only [sweepStep]
  cases hd : (diagonalize_hamiltonian (some (setLoopAndUpdate acc.1 fv)) n).2 with
  | error e =>
    intro row hrow
    rcases List.mem_append.mp hrow with h | h
    · exact hrows row h
    · rw [List.mem_singleton] at h
      subst h
      rcases heq : acc.2 with _ | ⟨r0, rs⟩
      · simp
      · rw [← heq]
        exact hrows _ (getLastD_mem_of_ne_nil _ _ (by rw [heq]; simp))
  | ok es =>
    intro row hrow
    rcases List.mem_append.mp hrow with h | h
    · exact hrows row h
    · rw [List.mem_singleton] at h
      subst h
      have hmin : min n es.length ≤ es.length := Nat.min_le_right n es.length
      simp only [List.length_append, List.length_map, List.length_take,
        List.length_replicate]
      omega

/-- The circuit state after folding the sweep loop carries the last
visited flux value (or the initial one on an empty grid). -/
theorem foldl_sweepStep_loopValue (n : ℕ) (fvs : List ℚ) :
    ∀ acc : Circuit × List (List EVal),
      (fvs.foldl (sweepStep n) acc).1.loopValue =
        fvs.getLastD acc.1.loopValue := by
  induction fvs with
  | nil => intro acc; rfl
  | cons fv fvs ih =>
    intro acc
    rw [List.foldl_cons, List.getLastD_cons, ih]
    congr 1
    rw [sweepStep_fst, setTruncFallback_loopValue]
    rfl

/-- Folding the sweep loop adds one row per visited flux value. -/
theorem foldl_sweepStep_length (n : ℕ) (fvs : List ℚ) :
    ∀ acc : Circuit × List (List EVal),
      (fvs.foldl (sweepStep n) acc).2.length = acc.2.length + fvs.length := by
  induction fvs with
  | nil => intro acc; simp
  | cons fv fvs ih =>
    intro acc
    rw [List.foldl_cons, ih]
    obtain ⟨row, hrow⟩ := sweepStep_snd_append n acc fv
    rw [hrow]
    simp only [List.length_append, List.length_cons, List.length_singleton,
      List.length_nil]
    omega

/-- Folding the sweep loop only ever appends rows. -/
theorem foldl_sweepStep_append (n : ℕ) (fvs : List ℚ) :
    ∀ acc : Circuit × List (List EVal),
      ∃ t, (fvs.foldl (sweepStep n) acc).2 = acc.2 ++ t := by
  induction fvs with
  | nil => intro acc; exact ⟨[], by simp⟩
  | cons fv fvs ih =>
    intro acc
    obtain ⟨t, ht⟩ := ih (sweepStep n acc fv)
    obtain ⟨row, hrow⟩ := sweepStep_snd_append n acc fv
    rw [List.foldl_cons]
    exact ⟨row :: t, by rw [ht, hrow, List.append_assoc]; rfl⟩

/-- Folding the sweep loop keeps every row at `n` slots. -/
theorem foldl_sweepStep_row_length (n : ℕ) (fvs : List ℚ) :
    ∀ acc : Circuit × List (List EVal),
      (∀ row ∈ acc.2, row.length = n) →
      ∀ row ∈ (fvs.foldl (sweepStep n) acc).2, row.length = n := by
  induction fvs with
  | nil => intro acc h; simpa using h
  | cons fv fvs ih =>
    intro acc h
    rw [List.foldl_cons]
    exact ih _ (sweepStep_row_length n acc fv h)

/-! Properties of the flux grid. -/

/-- The grid has exactly the requested number of samples. -/
theorem linspace_length (lo hi : ℚ) (n : ℕ) : (linspace lo hi n).length = n := by
  unfold linspace
  split <;> simp

/-- The grid samples for at least two points. -/
theorem linspace_getD (lo hi : ℚ) (n j : ℕ) (h2 : 2 ≤ n) (hj : j < n) :
    (linspace lo hi n).getD j 0 =
      lo + (hi - lo) * (j : ℚ) / ((n : ℚ) - 1) := by
  unfold linspace
  rw [if_neg (by omega), List.getD_eq_getElem?_getD, List.getElem?_map,
    List.getElem?_range hj]
  rfl

/-- The first grid sample is the lower bound. -/
theorem linspace_getD_zero (lo hi : ℚ) (n : ℕ) (h2 : 2 ≤ n) :
    (linspace lo hi n).getD 0 0 = lo := by
  rw [linspace_getD lo hi n 0 h2 (by omega)]
  norm_num

/-- The last grid sample is the upper bound. -/
theorem linspace_getD_last (lo hi : ℚ) (n : ℕ) (h2 : 2 ≤ n) :
    (linspace lo hi n).getD (n - 1) 0 = hi := by
  rw [linspace_getD lo hi n (n - 1) h2 (by omega)]
  have h1 : (1 : ℕ) ≤ n := by omega
  have hne : ((n : ℚ) - 1) ≠ 0 := by
    have : (2 : ℚ) ≤ (n : ℚ) := by exact_mod_cast h2
    linarith
  have hcast : ((n - 1 : ℕ) : ℚ) = (n : ℚ) - 1 := by
    push_cast [h1]
    ring
  rw [hcast, mul_div_assoc, div_self hne, mul_one]
  ring

/-- The last grid sample, as `getLastD`, is the upper bound. -/
theorem linspace_getLastD (lo hi : ℚ) (n : ℕ) (h2 : 2 ≤ n) (v : ℚ) :
    (linspace lo hi n).getLastD v = hi := by
  have hlen := linspace_length lo hi n
  rw [getLastD_eq_getD, hlen]
  have hvalid : n - 1 < (linspace lo hi n).length := by rw [hlen]; omega
  rw [getD_eq_getElem_of_lt _ _ v hvalid,
    ← getD_eq_getElem_of_lt _ _ 0 hvalid]
  exact linspace_getD_last lo hi n h2

/-! Claim C10: the sweep leaves the circuit at the final flux sample. -/

/-- C10 counterexample: the valid one point sweep over `(0, 1)` runs
its single iteration, which does set the flux, yet leaves the loop at
the only grid sample 0 (`np.linspace(0, 1, 1) = [0]`), not at the
upper bound 1, so the claim that the loop is left equal to `hi` is
false at `n_points = 1`. -/
theorem flux_sweep_one_point_flux_cex :
    (flux_sweep cAlways (some (0, 1)) 1 2).1.loopValue = 0 ∧
    ((0 : ℚ) = 1 → False) :=
  ⟨rfl, by norm_num⟩

/-- C10 amended: the sweep mutates the flux loop in place at each
sample and never restores it: for every incoming circuit (whatever
flux the caller had configured), after a valid sweep the loop is left
at the final grid sample — `hi` when `n_points ≥ 2`, but `lo` when
`n_points = 1` (the one sample `np.linspace` produces there); only a
zero point sweep, which runs no iteration, leaves the loop value
untouched. -/
theorem flux_sweep_leaves_final_flux (c : Circuit) (lo hi : ℚ)
    (n_points n_levels : ℕ)
    (hrange : 0 ≤ lo ∧ lo < hi ∧ hi ≤ 1) (hloop : c.hasLoop = true) :
    (2 ≤ n_points →
      (flux_sweep c (some (lo, hi)) n_points n_levels).1.loopValue = hi) ∧
    (n_points = 1 →
      (flux_sweep c (some (lo, hi)) n_points n_levels).1.loopValue = lo) ∧
    (n_points = 0 →
      (flux_sweep c (some (lo, hi)) n_points n_levels).1.loopValue =
        c.loopValue) := by
  have hbase : (flux_sweep c (some (lo, hi)) n_points n_levels).1.loopValue =
      (linspace lo hi n_points).getLastD c.loopValue := by
    rw [flux_sweep, if_pos hrange, if_pos hloop]
    show ((linspace lo hi n_points).foldl (sweepStep n_levels) (c, [])).1.loopValue
        = _
    rw [foldl_sweepStep_loopValue]
  refine ⟨fun h2 => ?_, fun h1 => ?_, fun h0 => ?_⟩
  · rw [hbase]
    exact linspace_getLastD lo hi n_points h2 _
  · subst h1
    rw [hbase]
    simp [linspace]
  · subst h0
    rw [hbase]
    simp [linspace]

/-- Witness for C10 amended: a five point sweep over the full range
leaves the loop at flux 1 (not at the 0.5 the circuit started with),
while a one point sweep leaves it at flux 0. -/
theorem flux_sweep_leaves_final_flux_witness :
    (flux_sweep cAlways (some (0, 1)) 5 2).1.loopValue = 1 ∧
    (flux_sweep cAlways (some (0, 1)) 1 2).1.loopValue = 0 :=
  ⟨(flux_sweep_leaves_final_flux cAlways 0 1 5 2 (by norm_num) rfl).1 (by omega),
   (flux_sweep_leaves_final_flux cAlways 0 1 1 2 (by norm_num) rfl).2.1 rfl⟩

/-! Claim C3: result shape and the parameter grid. -/

/-- C3 counterexample: for the valid one point sweep over `(0, 1)` the
returned parameter values are `[0]`; the upper endpoint 1 is not among
them, so the claim that the grid always includes both endpoints is
false at `n_points = 1`. -/
theorem flux_sweep_grid_cex :
    (flux_sweep cAlways (some (0, 1)) 1 2).2 =
      .ok ⟨[0], [[EVal.num 0, EVal.num 5]]⟩ ∧
    ¬ ((1 : ℚ) ∈ SweepRes.flux_values ⟨[0], [[EVal.num 0, EVal.num 5]]⟩) := by
  refine ⟨rfl, ?_⟩
  intro h
  rw [SweepRes.flux_values, List.mem_singleton] at h
  exact absurd h (by norm_num)

/-- C3 amended: every valid sweep returns exactly `n_points` rows of
exactly `level_count` slots each, however many points failed, and the
parameter values are exactly the `np.linspace` grid, never perturbed:
for `n_points ≥ 2` the samples are `lo + (hi-lo)*j/(n_points-1)`, with
both endpoints included; for `n_points = 1` the single sample is `lo`
(the upper endpoint is not included); over `[0, 1]` with 5 points the
grid is exactly `[0, 0.25, 0.5, 0.75, 1]`. -/
theorem flux_sweep_shape_and_grid (c : Circuit) (lo hi : ℚ)
    (n_points n_levels : ℕ) (r : SweepRes)
    (hrange : 0 ≤ lo ∧ lo < hi ∧ hi ≤ 1) (hloop : c.hasLoop = true)
    (hr : (flux_sweep c (some (lo, hi)) n_points n_levels).2 = .ok r) :
    r.energy_levels.length = n_points ∧
    (∀ row ∈ r.energy_levels, row.length = n_levels) ∧
    r.flux_values.length = n_points ∧
    (∀ j, 2 ≤ n_points → j < n_points →
      r.flux_values.getD j 0 = lo + (hi - lo) * (j : ℚ) / ((n_points : ℚ) - 1)) ∧
    (2 ≤ n_points → r.flux_values.getD 0 0 = lo ∧
      r.flux_values.getD (n_points - 1) 0 = hi) ∧
    (n_points = 1 → r.flux_values = [lo]) ∧
    (n_points = 5 → lo = 0 → hi = 1 →
      r.flux_values = [0, 1/4, 1/2, 3/4, 1]) := by
  rw [flux_sweep, if_pos hrange, if_pos hloop] at hr
  simp only [Except.ok.injEq] at hr
  subst hr
  refine ⟨?_, ?_, ?_, ?_, ?_, ?_, ?_⟩
  · show ((linspace lo hi n_points).foldl (sweepStep n_levels) (c, [])).2.length
        = n_points
    rw [foldl_sweepStep_length]
    simp [linspace_length]
  · exact foldl_sweepStep_row_length n_levels (linspace lo hi n_points) (c, [])
      (by simp)
  · exact linspace_length lo hi n_points
  · intro j h2 hj
    exact linspace_getD lo hi n_points j h2 hj
  · intro h2
    exact ⟨linspace_getD_zero lo hi n_points h2,
      linspace_getD_last lo hi n_points h2⟩
  · intro h1
    subst h1
    simp [linspace]
  · intro h5 hlo hhi
    subst h5
    subst hlo
    subst hhi
    show linspace 0 1 5 = [0, 1/4, 1/2, 3/4, 1]
    norm_num [linspace, List.range_succ]

/-- Witness for C3 amended at the end-to-end scenario: 5 points over
the full flux range with an always succeeding solver. -/
theorem flux_sweep_shape_and_grid_witness :
    SweepRes.flux_values
        ⟨linspace 0 1 5,
          ((linspace 0 1 5).foldl (sweepStep 2) (cAlways, [])).2⟩ =
      [0, 1/4, 1/2, 3/4, 1] ∧
    (SweepRes.energy_levels
        ⟨linspace 0 1 5,
          ((linspace 0 1 5).foldl (sweepStep 2) (cAlways, [])).2⟩).length = 5 := by
  have h := flux_sweep_shape_and_grid cAlways 0 1 5 2
    ⟨linspace 0 1 5, ((linspace 0 1 5).foldl (sweepStep 2) (cAlways, [])).2⟩
    (by norm_num) rfl rfl
  exact ⟨h.2.2.2.2.2.2 rfl rfl rfl, h.1⟩

/-! Claim C1: the per-point failure recovery policy. -/

/-- C1: in a valid sweep, when the diagonalization of sample `i` fails,
the sweep is neither aborted nor the point dropped: the result still
has one row per point, and the row stored at `i` equals, element for
element, the row stored at `i - 1` (whatever that row holds, including
an earlier recovery value) when `i > 0`, and is entirely filled with
not-a-number markers when `i = 0`. -/
theorem flux_sweep_failure_recovery (c : Circuit) (lo hi : ℚ)
    (n_points n_levels i : ℕ) (r : SweepRes)
    (hrange : 0 ≤ lo ∧ lo < hi ∧ hi ≤ 1) (hloop : c.hasLoop = true)
    (hi_lt : i < n_points)
    (hfail : pointFails n_levels
      (((linspace lo hi n_points).take i).foldl (sweepStep n_levels) (c, [])).1
      ((linspace lo hi n_points).getD i 0))
    (hr : (flux_sweep c (some (lo, hi)) n_points n_levels).2 = .ok r) :
    r.energy_levels.length = n_points ∧
    (0 < i → r.energy_levels.getD i [] = r.energy_levels.getD (i - 1) []) ∧
    (i = 0 → r.energy_levels.getD 0 [] = List.replicate n_levels EVal.nan) := by
  have hflen : (linspace lo hi n_points).length = n_points :=
    linspace_length lo hi n_points
  rw [flux_sweep, if_pos hrange, if_pos hloop] at hr
  simp only [Except.ok.injEq] at hr
  subst hr
  set fvs := linspace lo hi n_points with hfvs
  have hi_lt2 : i < fvs.length := by omega
  set mid := (fvs.take i).foldl (sweepStep n_levels) (c, []) with hmid
  have hmidlen : mid.2.length = i := by
    rw [hmid, foldl_sweepStep_length]
    simp only [List.length_take, List.length_nil]
    omega
  have hsplit : fvs = fvs.take i ++ fvs[i] :: fvs.drop (i + 1) := by
    conv_lhs => rw [← List.take_append_drop i fvs]
    rw [List.drop_eq_getElem_cons hi_lt2]
  have hstep : (sweepStep n_levels mid fvs[i]).2 =
      mid.2 ++ [mid.2.getLastD (List.replicate n_levels EVal.nan)] := by
    apply sweepStep_snd_of_fail
    have hgd : fvs.getD i 0 = fvs[i] := getD_eq_getElem_of_lt fvs i 0 hi_lt2
    rw [← hgd]
    exact hfail
  obtain ⟨t, ht⟩ := foldl_sweepStep_append n_levels (fvs.drop (i + 1))
    (sweepStep n_levels mid fvs[i])
  have hkey : (fvs.foldl (sweepStep n_levels) (c, [])).2 =
      (mid.2 ++ [mid.2.getLastD (List.replicate n_levels EVal.nan)]) ++ t := by
    conv_lhs => rw [hsplit]
    rw [List.foldl_append, List.foldl_cons, ← hmid, ht, hstep]
  refine ⟨?_, ?_, ?_⟩
  · show (fvs.foldl (sweepStep n_levels) (c, [])).2.length = n_points
    rw [foldl_sweepStep_length]
    simp only [List.length_nil]
    omega
  · intro hpos
    show (fvs.foldl (sweepStep n_levels) (c, [])).2.getD i [] =
      (fvs.foldl (sweepStep n_levels) (c, [])).2.getD (i - 1) []
    rw [hkey]
    have hlen1 : (mid.2 ++
        [mid.2.getLastD (List.replicate n_levels EVal.nan)]).length = i + 1 := by
      simp [hmidlen]
    rw [List.getD_append _ _ [] i (by omega),
      List.getD_append _ _ [] (i - 1) (by omega)]
    have hx : (mid.2 ++
        [mid.2.getLastD (List.replicate n_levels EVal.nan)]).getD i [] =
        mid.2.getLastD (List.replicate n_levels EVal.nan) := by
      rw [List.getD_eq_getElem?_getD, ← hmidlen, List.getElem?_concat_length]
      rfl
    rw [hx, List.getD_append _ _ [] (i - 1) (by omega)]
    rw [getLastD_eq_getD, hmidlen]
    rw [getD_eq_getElem_of_lt mid.2 (i - 1) _ (by omega),
      getD_eq_getElem_of_lt mid.2 (i - 1) _ (by omega)]
  · intro h0
    subst h0
    show (fvs.foldl (sweepStep n_levels) (c, [])).2.getD 0 [] =
      List.replicate n_levels EVal.nan
    rw [hkey]
    have hnil : mid.2 = [] :=
      List.eq_nil_of_length_eq_zero (by rw [hmidlen])
    rw [hnil]
    simp

/-- Witness for C1 on a three point sweep whose solver fails at every
point: the first row is all not-a-number and the second row copies the
first. -/
theorem flux_sweep_failure_recovery_witness :
    (SweepRes.energy_levels
        ⟨linspace 0 1 3,
          [[EVal.nan, EVal.nan], [EVal.nan, EVal.nan],
            [EVal.nan, EVal.nan]]⟩).length = 3 ∧
    (SweepRes.energy_levels
        ⟨linspace 0 1 3,
          [[EVal.nan, EVal.nan], [EVal.nan, EVal.nan],
            [EVal.nan, EVal.nan]]⟩).getD 1 [] =
      (SweepRes.energy_levels
        ⟨linspace 0 1 3,
          [[EVal.nan, EVal.nan], [EVal.nan, EVal.nan],
            [EVal.nan, EVal.nan]]⟩).getD 0 [] := by
  have h := flux_sweep_failure_recovery cFail 0 1 3 2 1
    ⟨linspace 0 1 3,
      [[EVal.nan, EVal.nan], [EVal.nan, EVal.nan], [EVal.nan, EVal.nan]]⟩
    (by norm_num) rfl (by omega) (by rfl) rfl
  exact ⟨h.1, h.2.1 (by omega)⟩
